import Mathlib

/-!
Verification of the NGINX ingress controller's configuration-rendering
arithmetic and apply protocol, against a shallow embedding of the Go
sources.  The repository contains two generations of the controller file
(package controller, nginx.go): a legacy one (glog-based, OnUpdate renders
inline) and a current one (klog-based, renderTemplate + OnUpdate).  Both
are embedded below; definitions for the legacy generation carry a
legacy prefix in their names.

Go machine integers are embedded as Lean Int with infinite two's
complement bitwise operations.  All claim statements are confined to
ranges in which no 64-bit overflow can occur, so on every input mentioned
in a theorem the embedding agrees exactly with Go int64 arithmetic.
-/

/-- Natural-number bit clear: a AND (NOT b).  Since a AND b selects a
subset of the bits of a, subtracting it removes exactly those bits. -/
def ldiffN (a b : ℕ) : ℕ := a - (a &&& b)

/-- Go unary complement on int (two's complement NOT): not x = -x - 1. -/
def intNot : ℤ → ℤ
  | .ofNat a => .negSucc a
  | .negSucc a => .ofNat a

/-- Go signed right shift on int (arithmetic shift, floor division by a
power of two): for -(a+1) we have floor of -(a+1) divided by two to the k
equal to -((a shifted right by k) + 1). -/
def intShiftR : ℤ → ℕ → ℤ
  | .ofNat a, k => .ofNat (a >>> k)
  | .negSucc a, k => .negSucc (a >>> k)

/-- Go bitwise OR on int, in two's complement: with -(a+1) = NOT a,
NOT a OR NOT b = NOT (a AND b), and a OR NOT b = NOT (b AND NOT a). -/
def intLor : ℤ → ℤ → ℤ
  | .ofNat a, .ofNat b => .ofNat (a ||| b)
  | .ofNat a, .negSucc b => .negSucc (ldiffN b a)
  | .negSucc a, .ofNat b => .negSucc (ldiffN a b)
  | .negSucc a, .negSucc b => .negSucc (a &&& b)

/-- Go bitwise AND on int, in two's complement. -/
def intLand : ℤ → ℤ → ℤ
  | .ofNat a, .ofNat b => .ofNat (a &&& b)
  | .ofNat a, .negSucc b => .ofNat (ldiffN a b)
  | .negSucc a, .ofNat b => .ofNat (ldiffN b a)
  | .negSucc a, .negSucc b => .negSucc (a ||| b)

/-- One step of the bit-smearing cascade: v = v OR (v shifted right k). -/
def orShrI (x : ℤ) (k : ℕ) : ℤ := intLor x (intShiftR x k)

/-- Embedding of nextPowerOf2 (identical in both controller generations):
decrement, OR in the right shifts by 1, 2, 4, 8, 16, increment. -/
def nextPowerOf2 (v : ℤ) : ℤ :=
  orShrI (orShrI (orShrI (orShrI (orShrI (v - 1) 1) 2) 4) 8) 16 + 1

/-- Embedding of nginxHashBucketSize (identical in both controller
generations): wordSize = 8, n = longestString + 2,
aligned = (n + wordSize - 1) AND (NOT (wordSize - 1)),
rawSize = wordSize + wordSize + aligned, result nextPowerOf2 rawSize. -/
def nginxHashBucketSize (longestString : ℤ) : ℤ :=
  nextPowerOf2 (8 + 8 + intLand (longestString + 2 + 8 - 1) (intNot (8 - 1)))

/-- Alignment formula as written in the spec: align(n, w) =
((n + w - 1) / w) * w.  Used only to compare against the source's
bit-masking computation. -/
def specAlign (n w : ℤ) : ℤ := ((n + w - 1) / w) * w

/-! ### Natural-number images of the cascade -/

/-- OR-smear step on naturals; image of orShrI on nonnegative ints. -/
def orShrN (x : ℕ) (k : ℕ) : ℕ := x ||| (x >>> k)

/-- AND step on naturals; image of orShrI on negative ints (the OR of two
negatives is the complement of the AND of their complements). -/
def andShrN (x : ℕ) (k : ℕ) : ℕ := x &&& (x >>> k)

/-- The five OR-smear steps applied to a natural. -/
def smearN (x : ℕ) : ℕ :=
  orShrN (orShrN (orShrN (orShrN (orShrN x 1) 2) 4) 8) 16

/-- The five AND steps applied to a natural. -/
def asmearN (x : ℕ) : ℕ :=
  andShrN (andShrN (andShrN (andShrN (andShrN x 1) 2) 4) 8) 16

theorem intShiftR_ofNat (a k : ℕ) : intShiftR (Int.ofNat a) k = Int.ofNat (a >>> k) := rfl

theorem orShrI_ofNat (a k : ℕ) : orShrI (Int.ofNat a) k = Int.ofNat (orShrN a k) := rfl

theorem orShrI_negSucc (a k : ℕ) :
    orShrI (Int.negSucc a) k = Int.negSucc (andShrN a k) := rfl

theorem ofNat_succ_sub_one (m : ℕ) : (Int.ofNat (m + 1)) - 1 = Int.ofNat m := by
  simp only [Int.ofNat_eq_coe]
  omega

/-- On a positive input m + 1 the cascade runs entirely on nonnegative
values and computes the natural-number smear of m. -/
theorem nextPowerOf2_ofNat_succ (m : ℕ) :
    nextPowerOf2 (Int.ofNat (m + 1)) = Int.ofNat (smearN m + 1) := by
  unfold nextPowerOf2
  rw [ofNat_succ_sub_one, orShrI_ofNat, orShrI_ofNat, orShrI_ofNat, orShrI_ofNat,
    orShrI_ofNat]
  simp only [smearN, Int.ofNat_eq_coe]
  omega

theorem neg_ofNat_sub_one (m : ℕ) : (-(Int.ofNat m)) - 1 = Int.negSucc m := by
  rw [Int.negSucc_eq]
  simp only [Int.ofNat_eq_coe]
  ring

/-- On a nonpositive input -m the cascade runs entirely on negative values
and computes the complement of the AND cascade on m. -/
theorem nextPowerOf2_neg_ofNat (m : ℕ) :
    nextPowerOf2 (-(Int.ofNat m)) = -(Int.ofNat (asmearN m)) := by
  unfold nextPowerOf2
  rw [neg_ofNat_sub_one, orShrI_negSucc, orShrI_negSucc, orShrI_negSucc, orShrI_negSucc,
    orShrI_negSucc]
  rw [Int.negSucc_eq]
  simp only [asmearN, Int.ofNat_eq_coe]
  ring

/-! ### Window characterization of the cascades -/

theorem testBit_orShrN (x k i : ℕ) :
    (orShrN x k).testBit i = (x.testBit i || x.testBit (i + k)) := by
  simp [orShrN, Nat.testBit_lor, Nat.testBit_shiftRight, Nat.add_comm k i]

theorem testBit_andShrN (x k i : ℕ) :
    (andShrN x k).testBit i = (x.testBit i && x.testBit (i + k)) := by
  simp [andShrN, Nat.testBit_land, Nat.testBit_shiftRight, Nat.add_comm k i]

theorem orWindow_double {x y : ℕ} {m : ℕ}
    (hy : ∀ i, y.testBit i = true ↔ ∃ j, j < m ∧ x.testBit (i + j) = true) :
    ∀ i, (orShrN y m).testBit i = true ↔ ∃ j, j < 2 * m ∧ x.testBit (i + j) = true := by
  intro i
  rw [testBit_orShrN, Bool.or_eq_true]
  constructor
  · rintro (h | h)
    · obtain ⟨j, hj, hb⟩ := (hy i).mp h
      exact ⟨j, by omega, hb⟩
    · obtain ⟨j, hj, hb⟩ := (hy (i + m)).mp h
      rw [Nat.add_assoc] at hb
      exact ⟨m + j, by omega, hb⟩
  · rintro ⟨j, hj, hb⟩
    rcases Nat.lt_or_ge j m with hlt | hge
    · exact Or.inl ((hy i).mpr ⟨j, hlt, hb⟩)
    · refine Or.inr ((hy (i + m)).mpr ⟨j - m, by omega, ?_⟩)
      have he : i + m + (j - m) = i + j := by omega
      rw [he]
      exact hb

theorem andWindow_double {x y : ℕ} {m : ℕ}
    (hy : ∀ i, y.testBit i = true ↔ ∀ j, j < m → x.testBit (i + j) = true) :
    ∀ i, (andShrN y m).testBit i = true ↔ ∀ j, j < 2 * m → x.testBit (i + j) = true := by
  intro i
  rw [testBit_andShrN, Bool.and_eq_true]
  constructor
  · rintro ⟨h1, h2⟩ j hj
    rcases Nat.lt_or_ge j m with hlt | hge
    · exact (hy i).mp h1 j hlt
    · have := (hy (i + m)).mp h2 (j - m) (by omega)
      have he : i + m + (j - m) = i + j := by omega
      rw [he] at this
      exact this
  · intro h
    constructor
    · exact (hy i).mpr fun j hj => h j (by omega)
    · refine (hy (i + m)).mpr fun j hj => ?_
      have := h (m + j) (by omega)
      rw [Nat.add_assoc]
      exact this

theorem testBit_smearN (x : ℕ) :
    ∀ i, (smearN x).testBit i = true ↔ ∃ j, j < 32 ∧ x.testBit (i + j) = true := by
  have h1 : ∀ i, x.testBit i = true ↔ ∃ j, j < 1 ∧ x.testBit (i + j) = true := by
    intro i
    constructor
    · intro h
      exact ⟨0, by omega, by simpa using h⟩
    · rintro ⟨j, hj, hb⟩
      have hj0 : j = 0 := by omega
      subst hj0
      simpa using hb
  have h2 : ∀ i, (orShrN x 1).testBit i = true ↔ ∃ j, j < 2 ∧ x.testBit (i + j) = true := by
    simpa using orWindow_double h1
  have h4 : ∀ i, (orShrN (orShrN x 1) 2).testBit i = true ↔
      ∃ j, j < 4 ∧ x.testBit (i + j) = true := by
    simpa using orWindow_double h2
  have h8 : ∀ i, (orShrN (orShrN (orShrN x 1) 2) 4).testBit i = true ↔
      ∃ j, j < 8 ∧ x.testBit (i + j) = true := by
    simpa using orWindow_double h4
  have h16 : ∀ i, (orShrN (orShrN (orShrN (orShrN x 1) 2) 4) 8).testBit i = true ↔
      ∃ j, j < 16 ∧ x.testBit (i + j) = true := by
    simpa using orWindow_double h8
  have h32 := orWindow_double h16
  intro i
  simpa [smearN] using h32 i

theorem testBit_asmearN (x : ℕ) :
    ∀ i, (asmearN x).testBit i = true ↔ ∀ j, j < 32 → x.testBit (i + j) = true := by
  have h1 : ∀ i, x.testBit i = true ↔ ∀ j, j < 1 → x.testBit (i + j) = true := by
    intro i
    constructor
    · intro h j hj
      have hj0 : j = 0 := by omega
      subst hj0
      simpa using h
    · intro h
      simpa using h 0 (by omega)
  have h2 : ∀ i, (andShrN x 1).testBit i = true ↔
      ∀ j, j < 2 → x.testBit (i + j) = true := by
    simpa using andWindow_double h1
  have h4 : ∀ i, (andShrN (andShrN x 1) 2).testBit i = true ↔
      ∀ j, j < 4 → x.testBit (i + j) = true := by
    simpa using andWindow_double h2
  have h8 : ∀ i, (andShrN (andShrN (andShrN x 1) 2) 4).testBit i = true ↔
      ∀ j, j < 8 → x.testBit (i + j) = true := by
    simpa using andWindow_double h4
  have h16 : ∀ i, (andShrN (andShrN (andShrN (andShrN x 1) 2) 4) 8).testBit i = true ↔
      ∀ j, j < 16 → x.testBit (i + j) = true := by
    simpa using andWindow_double h8
  have h32 := andWindow_double h16
  intro i
  simpa [asmearN] using h32 i

/-! ### Size characterization -/

theorem testBit_size_pred {x : ℕ} (hx : 1 ≤ x) : x.testBit (x.size - 1) = true := by
  have hs : 1 ≤ x.size := by
    rcases Nat.eq_zero_or_pos x.size with h | h
    · exact absurd (Nat.size_eq_zero.mp h) (by omega)
    · exact h
  have h1 : 2 ^ (x.size - 1) ≤ x := Nat.lt_size.mp (by omega)
  have h2 : x < 2 ^ (x.size - 1 + 1) := by
    have := Nat.lt_size_self x
    have he : x.size - 1 + 1 = x.size := by omega
    rw [he]
    exact this
  rw [Nat.testBit_to_div_mod]
  have hd : x / 2 ^ (x.size - 1) = 1 := by
    apply Nat.div_eq_of_lt_le
    · simpa using h1
    · have : (1 + 1) * 2 ^ (x.size - 1) = 2 ^ (x.size - 1 + 1) := by ring
      rw [this]
      exact h2
  rw [hd]
  decide

theorem smearN_eq_two_pow_size_sub_one {x : ℕ} (hx : x < 2 ^ 32) :
    smearN x = 2 ^ x.size - 1 := by
  have hs32 : x.size ≤ 32 := Nat.size_le.mpr hx
  apply Nat.eq_of_testBit_eq
  intro i
  rw [Nat.testBit_two_pow_sub_one]
  by_cases h : i < x.size
  · rw [decide_eq_true h]
    have hx1 : 1 ≤ x := by
      by_contra hc
      have : x = 0 := by omega
      subst this
      simp [Nat.size_zero] at h
    refine (testBit_smearN x i).mpr ⟨x.size - 1 - i, by omega, ?_⟩
    have he : i + (x.size - 1 - i) = x.size - 1 := by omega
    rw [he]
    exact testBit_size_pred hx1
  · rw [decide_eq_false h]
    by_contra hc
    have hc' : (smearN x).testBit i = true := by
      revert hc
      cases (smearN x).testBit i <;> simp
    obtain ⟨j, hj, hb⟩ := (testBit_smearN x i).mp hc'
    have hlt : i + j < x.size := by
      by_contra hge
      have : x < 2 ^ (i + j) := by
        calc x < 2 ^ x.size := Nat.lt_size_self x
        _ ≤ 2 ^ (i + j) := Nat.pow_le_pow_right (by omega) (by omega)
      rw [Nat.testBit_lt_two_pow this] at hb
      exact Bool.false_ne_true hb
    omega

theorem asmearN_eq_zero {m : ℕ} (hm : m < 2 ^ 32 - 1) : asmearN m = 0 := by
  apply Nat.eq_of_testBit_eq
  intro i
  rw [Nat.zero_testBit]
  by_contra hc
  have hc' : (asmearN m).testBit i = true := by
    revert hc
    cases (asmearN m).testBit i <;> simp
  have hall := (testBit_asmearN m i).mp hc'
  rcases Nat.eq_zero_or_pos i with hi0 | hip
  · subst hi0
    have hfull : ∀ j, j < 32 → m.testBit j = true := by
      intro j hj
      simpa using hall j hj
    have hmeq : m = 2 ^ 32 - 1 := by
      apply Nat.eq_of_testBit_eq
      intro k
      rw [Nat.testBit_two_pow_sub_one]
      by_cases hk : k < 32
      · rw [decide_eq_true hk]
        exact hfull k hk
      · rw [decide_eq_false hk]
        apply Nat.testBit_lt_two_pow
        calc m < 2 ^ 32 - 1 := hm
          _ ≤ 2 ^ k := by
            have : (2 : ℕ) ^ 32 ≤ 2 ^ k := Nat.pow_le_pow_right (by omega) (by omega)
            omega
    omega
  · have := hall 31 (by omega)
    have hbit : m.testBit (i + 31) = false := by
      apply Nat.testBit_lt_two_pow
      calc m < 2 ^ 32 - 1 := hm
        _ ≤ 2 ^ (i + 31) := by
          have : (2 : ℕ) ^ 32 ≤ 2 ^ (i + 31) := Nat.pow_le_pow_right (by omega) (by omega)
          omega
    rw [hbit] at this
    exact Bool.false_ne_true this

/-- Closed form of the embedded nextPowerOf2 on the range where the
16-bit shift cascade is complete: for 1 <= n <= 2 ^ 32 it returns
2 ^ size (n - 1), the least power of two that is at least n. -/
theorem nextPowerOf2_closed_form {m : ℕ} (hm : m < 2 ^ 32) :
    nextPowerOf2 (Int.ofNat (m + 1)) = Int.ofNat (2 ^ m.size) := by
  rw [nextPowerOf2_ofNat_succ, smearN_eq_two_pow_size_sub_one hm]
  have : 2 ^ m.size - 1 + 1 = 2 ^ m.size := by
    have : 1 ≤ 2 ^ m.size := Nat.one_le_two_pow
    omega
  rw [this]

theorem size_two_pow_sub_one (k : ℕ) : (2 ^ k - 1 : ℕ).size = k := by
  rcases Nat.eq_zero_or_pos k with h0 | hp
  · subst h0
    simp [Nat.size_zero]
  · have hle : (2 ^ k - 1 : ℕ).size ≤ k := Nat.size_le.mpr (by
      have : 1 ≤ 2 ^ k := Nat.one_le_two_pow
      omega)
    have hge : k ≤ (2 ^ k - 1 : ℕ).size := by
      have : k - 1 < (2 ^ k - 1 : ℕ).size := Nat.lt_size.mpr (by
        have h1 : 2 ^ (k - 1 + 1) = 2 * 2 ^ (k - 1) := by
          rw [Nat.pow_succ]
          ring
        have h2 : 2 ^ (k - 1 + 1) = 2 ^ k := by
          have : k - 1 + 1 = k := by omega
          rw [this]
        have h3 : 1 ≤ 2 ^ (k - 1) := Nat.one_le_two_pow
        omega)
      omega
    omega

/-! ### Claim C2: bucket size formula -/

theorem intLand_mask_eight (m : ℕ) :
    intLand ((m : ℤ) + 2 + 8 - 1) (intNot (8 - 1)) = Int.ofNat (8 * ((m + 9) / 8)) := by
  have h9 : ((m : ℤ) + 2 + 8 - 1) = Int.ofNat (m + 9) := by
    simp only [Int.ofNat_eq_coe]
    push_cast
    ring
  have h7 : ((8 : ℤ) - 1) = Int.ofNat 7 := by decide
  rw [h9, h7]
  show Int.ofNat (ldiffN (m + 9) 7) = Int.ofNat (8 * ((m + 9) / 8))
  have hland : (m + 9) &&& 7 = (m + 9) % 8 := by
    have h : (7 : ℕ) = 2 ^ 3 - 1 := by norm_num
    rw [h, Nat.and_pow_two_sub_one_eq_mod]
  unfold ldiffN
  rw [hland]
  have : (m + 9) - (m + 9) % 8 = 8 * ((m + 9) / 8) := by omega
  rw [this]

/-- C2: for every non-negative longest, nginxHashBucketSize longest equals
nextPow2 of (2 * wordSize + align (longest + 2) wordSize) with wordSize 8,
align as in the spec, and in particular nginxHashBucketSize 10 = 32.
The source computes the alignment with a bit mask, (n + 7) AND (NOT 7),
which on non-negative n agrees with ((n + 7) / 8) * 8. -/
theorem nginxHashBucketSize_eq_spec_formula (longest : ℤ) (h : 0 ≤ longest) :
    nginxHashBucketSize longest = nextPowerOf2 (2 * 8 + specAlign (longest + 2) 8) ∧
      nginxHashBucketSize 10 = 32 := by
  refine ⟨?_, by decide⟩
  obtain ⟨m, rfl⟩ := Int.eq_ofNat_of_zero_le h
  unfold nginxHashBucketSize
  rw [intLand_mask_eight]
  congr 1
  unfold specAlign
  simp only [Int.ofNat_eq_coe]
  push_cast
  omega

/-- Witness for C2 at longest = 10. -/
theorem nginxHashBucketSize_eq_spec_formula_witness :
    nginxHashBucketSize 10 = nextPowerOf2 (2 * 8 + specAlign (10 + 2) 8) ∧
      nginxHashBucketSize 10 = 32 :=
  nginxHashBucketSize_eq_spec_formula 10 (by decide)

/-! ### Claim C7: algebraic properties of nextPowerOf2 -/

/-- C7 counterexample: idempotence fails at 2 ^ 32 + 1 = 4294967297.
The shift cascade stops at 16, so for inputs above 2 ^ 32 the result is
not a power of two: nextPowerOf2 4294967297 = 2 ^ 33 - 1, while applying
nextPowerOf2 again gives 2 ^ 33. -/
theorem nextPowerOf2_not_idempotent_cex :
    nextPowerOf2 (nextPowerOf2 (4294967297 : ℤ)) ≠ nextPowerOf2 (4294967297 : ℤ) := by
  decide

/-- C7 (amended): in the range 0 <= n <= 2 ^ 32, where the 16-bit shift
cascade covers the whole value, nextPowerOf2 is idempotent, satisfies
n <= nextPowerOf2 n, and satisfies nextPowerOf2 n < 2 n for n > 1. -/
theorem nextPowerOf2_algebraic_props (n : ℤ) (h0 : 0 ≤ n) (h1 : n ≤ 2 ^ 32) :
    nextPowerOf2 (nextPowerOf2 n) = nextPowerOf2 n ∧ n ≤ nextPowerOf2 n ∧
      (1 < n → nextPowerOf2 n < 2 * n) := by
  obtain ⟨m, rfl⟩ := Int.eq_ofNat_of_zero_le h0
  cases m with
  | zero =>
    refine ⟨?_, ?_, ?_⟩ <;> simp only [Nat.cast_zero] <;> decide
  | succ k =>
    have hk : k < 2 ^ 32 := by
      have : (k + 1 : ℕ) ≤ 2 ^ 32 := by exact_mod_cast h1
      omega
    have hcast : ((k + 1 : ℕ) : ℤ) = Int.ofNat (k + 1) := rfl
    rw [hcast]
    have hcf := nextPowerOf2_closed_form hk
    rw [hcf]
    have hsz32 : k.size ≤ 32 := Nat.size_le.mpr hk
    refine ⟨?_, ?_, ?_⟩
    · have hp1 : (2 : ℕ) ^ k.size = (2 ^ k.size - 1) + 1 := by
        have : 1 ≤ (2 : ℕ) ^ k.size := Nat.one_le_two_pow
        omega
      have hb : (2 : ℕ) ^ k.size - 1 < 2 ^ 32 := by
        have : (2 : ℕ) ^ k.size ≤ 2 ^ 32 := Nat.pow_le_pow_right (by omega) hsz32
        have h1le : 1 ≤ (2 : ℕ) ^ 32 := Nat.one_le_two_pow
        omega
      rw [hp1, nextPowerOf2_closed_form hb, size_two_pow_sub_one]
      exact congrArg Int.ofNat hp1
    · exact Int.ofNat_le.mpr (Nat.lt_size_self k)
    · intro hgt
      have hk1 : 1 ≤ k := by
        have : (1 : ℤ) < Int.ofNat (k + 1) := hgt
        rw [Int.ofNat_eq_coe] at this
        omega
      have hs1 : 1 ≤ k.size := by
        rcases Nat.eq_zero_or_pos k.size with h | h
        · exact absurd (Nat.size_eq_zero.mp h) (by omega)
        · exact h
      have hle : 2 ^ (k.size - 1) ≤ k := Nat.lt_size.mp (by omega)
      have hnat : (2 : ℕ) ^ k.size < 2 * (k + 1) := by
        have hq : k.size - 1 + 1 = k.size := by omega
        have : (2 : ℕ) ^ k.size = 2 ^ (k.size - 1) * 2 := by
          conv_lhs => rw [← hq]
          rw [Nat.pow_succ]
        omega
      have : (Int.ofNat (2 ^ k.size)) < 2 * Int.ofNat (k + 1) := by
        simp only [Int.ofNat_eq_coe]
        exact_mod_cast hnat
      exact this

/-- Witness for C7 at n = 3. -/
theorem nextPowerOf2_algebraic_props_witness :
    nextPowerOf2 (nextPowerOf2 3) = nextPowerOf2 3 ∧ (3 : ℤ) ≤ nextPowerOf2 3 ∧
      (1 < (3 : ℤ) → nextPowerOf2 3 < 2 * 3) :=
  nextPowerOf2_algebraic_props 3 (by decide) (by decide)

/-! ### Claim C8: monotonicity of nginxHashBucketSize -/

/-- C8 counterexample: the bucket size is not monotone over all
non-negative inputs.  At a = 2 ^ 39 + 494 the raw size smears to a full
2 ^ 40 while at the larger b = 2 ^ 39 + 2 ^ 38 - 10 the incomplete
16-bit cascade leaves low bits unset, giving a smaller result
(2 ^ 40 - 120). -/
theorem nginxHashBucketSize_not_monotone_cex :
    (549755814382 : ℤ) ≤ 824633720822 ∧
      ¬ nginxHashBucketSize (549755814382 : ℤ) ≤ nginxHashBucketSize (824633720822 : ℤ) := by
  decide

theorem nginxHashBucketSize_ofNat (m : ℕ) :
    nginxHashBucketSize (Int.ofNat m) =
      nextPowerOf2 (Int.ofNat (16 + 8 * ((m + 9) / 8))) := by
  unfold nginxHashBucketSize
  rw [show (Int.ofNat m) + 2 + 8 - 1 = (m : ℤ) + 2 + 8 - 1 from rfl, intLand_mask_eight]
  congr 1

theorem nginxHashBucketSize_closed_form {m : ℕ} (hm : m ≤ 2 ^ 31) :
    nginxHashBucketSize (Int.ofNat m) =
      Int.ofNat (2 ^ (Nat.size (15 + 8 * ((m + 9) / 8)))) := by
  rw [nginxHashBucketSize_ofNat]
  have h16 : 16 + 8 * ((m + 9) / 8) = (15 + 8 * ((m + 9) / 8)) + 1 := by omega
  have hb : 15 + 8 * ((m + 9) / 8) < 2 ^ 32 := by
    have h1 : (2 : ℕ) ^ 31 = 2147483648 := by norm_num
    have h2 : (2 : ℕ) ^ 32 = 4294967296 := by norm_num
    omega
  rw [h16, nextPowerOf2_closed_form hb]

/-- C8 (amended): nginxHashBucketSize is non-decreasing on the range
0 <= a <= b <= 2 ^ 31, where the shift cascade of nextPowerOf2 is
complete; beyond roughly 2 ^ 32 monotonicity fails (see the
counterexample). -/
theorem nginxHashBucketSize_monotone (a b : ℤ) (h0 : 0 ≤ a) (hab : a ≤ b)
    (hb : b ≤ 2 ^ 31) : nginxHashBucketSize a ≤ nginxHashBucketSize b := by
  obtain ⟨ma, rfl⟩ := Int.eq_ofNat_of_zero_le h0
  obtain ⟨mb, rfl⟩ := Int.eq_ofNat_of_zero_le (le_trans h0 hab)
  have hmab : ma ≤ mb := by exact_mod_cast hab
  have hmb : mb ≤ 2 ^ 31 := by exact_mod_cast hb
  have hcast : ∀ x : ℕ, ((x : ℕ) : ℤ) = Int.ofNat x := fun _ => rfl
  rw [hcast ma, hcast mb, nginxHashBucketSize_closed_form (le_trans hmab hmb),
    nginxHashBucketSize_closed_form hmb]
  apply Int.ofNat_le.mpr
  apply Nat.pow_le_pow_right (by omega)
  apply Nat.size_le_size
  omega

/-- Witness for C8 at a = 3, b = 10. -/
theorem nginxHashBucketSize_monotone_witness :
    nginxHashBucketSize 3 ≤ nginxHashBucketSize 10 :=
  nginxHashBucketSize_monotone 3 10 (by decide) (by decide) (by decide)

/-! ### Claim C10: behavior on non-positive inputs -/

/-- C10 counterexample: not every non-positive input collapses to 0.
At v = -(2 ^ 32 - 1) the decremented value -2 ^ 32 has 32 consecutive
zero bits, the AND cascade leaves bit 0 clear nowhere, and the result is
-1, not 0. -/
theorem nextPowerOf2_nonpos_cex : nextPowerOf2 (-4294967295 : ℤ) ≠ 0 := by
  decide

/-- C10 (amended): every v with -(2 ^ 32 - 1) < v <= 0 is collapsed to 0
by the bit-doubling implementation; it neither fails nor returns a power
of two there.  The first non-positive input where this breaks is
-(2 ^ 32 - 1) (see the counterexample). -/
theorem nextPowerOf2_nonpos_eq_zero (v : ℤ) (hlo : -4294967295 < v) (hhi : v ≤ 0) :
    nextPowerOf2 v = 0 := by
  have h0 : 0 ≤ -v := by omega
  obtain ⟨m, hm⟩ := Int.eq_ofNat_of_zero_le h0
  have hv : v = -(Int.ofNat m) := by
    simp only [Int.ofNat_eq_coe]
    omega
  rw [hv, nextPowerOf2_neg_ofNat]
  have hmlt : m < 2 ^ 32 - 1 := by
    have h2 : (2 : ℕ) ^ 32 = 4294967296 := by norm_num
    omega
  rw [asmearN_eq_zero hmlt]
  decide

/-- Witness for C10 at v = -5. -/
theorem nextPowerOf2_nonpos_eq_zero_witness : nextPowerOf2 (-5 : ℤ) = 0 :=
  nextPowerOf2_nonpos_eq_zero (-5) (by decide) (by decide)

/-! ### Server model and the name-sizing loops of the two controller
generations -/

/-- Projection of the ingress Server entity to the fields used by the
name-sizing and redirect loops: Hostname, RedirectFromToWWW, Aliases.
The legacy generation has a single Alias string field which is subsumed
by a list of aliases; only the current generation reads aliases in its
sizing loop. -/
structure IngressServer where
  hostname : String
  redirectFromToWWW : Bool
  aliases : List String
deriving DecidableEq

/-- Loop body of the current renderTemplate sizing loop: hostnameLength
is the hostname length plus 4 when the server is flagged for the www
redirect; longestName is raised to hostnameLength and to every alias
length; serverNameBytes accumulates hostnameLength. -/
def rtNameStep (acc : ℕ × ℕ) (srv : IngressServer) : ℕ × ℕ :=
  let hostnameLength := srv.hostname.length + (if srv.redirectFromToWWW then 4 else 0)
  let longestName := if acc.1 < hostnameLength then hostnameLength else acc.1
  let longestName := srv.aliases.foldl
    (fun longest a => if longest < a.length then a.length else longest) longestName
  (longestName, acc.2 + hostnameLength)

/-- Embedding of the renderTemplate loop computing (longestName,
serverNameBytes), both initialized to 0. -/
def renderTemplateNameSizes (servers : List IngressServer) : ℕ × ℕ :=
  servers.foldl rtNameStep (0, 0)

/-- Loop body of the legacy OnUpdate sizing loop: longestName is raised
to the plain hostname length only; serverNameBytes accumulates the plain
hostname length.  No alias handling and no +4 for redirect servers. -/
def legacyNameStep (acc : ℕ × ℕ) (srv : IngressServer) : ℕ × ℕ :=
  ((if acc.1 < srv.hostname.length then srv.hostname.length else acc.1),
    acc.2 + srv.hostname.length)

/-- Embedding of the legacy OnUpdate loop computing (longestName,
serverNameBytes). -/
def legacyNameSizes (servers : List IngressServer) : ℕ × ℕ :=
  servers.foldl legacyNameStep (0, 0)

/-- Contribution of one server as described by the spec: its hostname
length (plus 4 when it generates a www redirect pairing) together with
the lengths of all its alias hostnames. -/
def specNameContributions (srv : IngressServer) : List ℕ :=
  (srv.hostname.length + (if srv.redirectFromToWWW then 4 else 0)) ::
    srv.aliases.map String.length

/-- The longest name as described by the spec: the maximum, over all
Server entities (hostname length, plus 4 if that Server is flagged for
www redirect pairing) and over all alias hostnames of every Server, of
the name length. -/
def specLongestName (servers : List IngressServer) : ℕ :=
  ((servers.map specNameContributions).flatten).foldr max 0

/-- The sum of the plain hostname lengths over all Server entities, as
described by the spec for the max-size candidate. -/
def specHostnameLengthSum (servers : List IngressServer) : ℕ :=
  (servers.map (fun srv => srv.hostname.length)).sum

theorem iteMax (a b : ℕ) : (if a < b then b else a) = max a b := by
  rw [Nat.max_def]
  split_ifs <;> omega

theorem foldl_ite_max {α : Type} (f : α → ℕ) (l : List α) :
    ∀ a : ℕ, l.foldl (fun m x => if m < f x then f x else m) a =
      max a ((l.map f).foldr max 0) := by
  induction l with
  | nil => intro a; simp
  | cons x xs ih =>
    intro a
    simp only [List.foldl_cons, List.map_cons, List.foldr_cons]
    rw [iteMax, ih, Nat.max_assoc]

theorem foldr_max_base (l : List ℕ) (b : ℕ) : l.foldr max b = max (l.foldr max 0) b := by
  induction l with
  | nil => simp
  | cons x xs ih =>
    simp only [List.foldr_cons]
    rw [ih, ← Nat.max_assoc]

theorem specLongestName_cons (srv : IngressServer) (rest : List IngressServer) :
    specLongestName (srv :: rest) =
      max ((specNameContributions srv).foldr max 0) (specLongestName rest) := by
  unfold specLongestName
  simp only [List.map_cons, List.flatten_cons, List.foldr_append]
  rw [foldr_max_base]

theorem rtNameStep_fst (acc : ℕ × ℕ) (srv : IngressServer) :
    (rtNameStep acc srv).1 = max acc.1 ((specNameContributions srv).foldr max 0) := by
  unfold rtNameStep specNameContributions
  simp only []
  rw [foldl_ite_max String.length srv.aliases, iteMax, Nat.max_assoc]
  simp only [List.foldr_cons]

theorem rt_fold_fst (rest : List IngressServer) :
    ∀ a b : ℕ, (List.foldl rtNameStep (a, b) rest).1 = max a (specLongestName rest) := by
  induction rest with
  | nil =>
    intro a b
    simp [specLongestName]
  | cons srv rest ih =>
    intro a b
    simp only [List.foldl_cons]
    have hpair : rtNameStep (a, b) srv =
        ((rtNameStep (a, b) srv).1, (rtNameStep (a, b) srv).2) := rfl
    rw [hpair, ih, rtNameStep_fst, specLongestName_cons, Nat.max_assoc]

theorem rt_fold_snd (rest : List IngressServer) :
    ∀ a b : ℕ, (List.foldl rtNameStep (a, b) rest).2 =
      b + (rest.map (fun srv =>
        srv.hostname.length + (if srv.redirectFromToWWW then 4 else 0))).sum := by
  induction rest with
  | nil =>
    intro a b
    simp
  | cons srv rest ih =>
    intro a b
    simp only [List.foldl_cons, List.map_cons, List.sum_cons]
    have hpair : rtNameStep (a, b) srv =
        ((rtNameStep (a, b) srv).1, (rtNameStep (a, b) srv).2) := rfl
    rw [hpair, ih]
    have hsnd : (rtNameStep (a, b) srv).2 =
        b + (srv.hostname.length + (if srv.redirectFromToWWW then 4 else 0)) := rfl
    rw [hsnd]
    ring

theorem legacy_fold_fst (rest : List IngressServer) :
    ∀ a b : ℕ, (List.foldl legacyNameStep (a, b) rest).1 =
      max a ((rest.map (fun srv => srv.hostname.length)).foldr max 0) := by
  induction rest with
  | nil =>
    intro a b
    simp
  | cons srv rest ih =>
    intro a b
    simp only [List.foldl_cons, List.map_cons, List.foldr_cons]
    have hpair : legacyNameStep (a, b) srv =
        ((legacyNameStep (a, b) srv).1, (legacyNameStep (a, b) srv).2) := rfl
    rw [hpair, ih]
    have hfst : (legacyNameStep (a, b) srv).1 =
        (if a < srv.hostname.length then srv.hostname.length else a) := rfl
    rw [hfst, iteMax, Nat.max_assoc]

theorem legacy_fold_snd (rest : List IngressServer) :
    ∀ a b : ℕ, (List.foldl legacyNameStep (a, b) rest).2 =
      b + specHostnameLengthSum rest := by
  induction rest with
  | nil =>
    intro a b
    simp [specHostnameLengthSum]
  | cons srv rest ih =>
    intro a b
    simp only [List.foldl_cons]
    have hpair : legacyNameStep (a, b) srv =
        ((legacyNameStep (a, b) srv).1, (legacyNameStep (a, b) srv).2) := rfl
    rw [hpair, ih]
    have hsnd : (legacyNameStep (a, b) srv).2 = b + srv.hostname.length := rfl
    rw [hsnd]
    unfold specHostnameLengthSum
    simp only [List.map_cons, List.sum_cons]
    ring

/-! ### Claim C4: the longest-name input to bucket sizing -/

/-- C4 counterexample: in the legacy OnUpdate loop a server with a 3-byte
hostname flagged RedirectFromToWWW yields longestName 3, while the
claimed maximum (hostname length plus 4 for the redirect flag) is 7. -/
theorem longestName_legacy_cex :
    (legacyNameSizes [⟨("a.b"), true, []⟩]).1 ≠
      specLongestName [⟨("a.b"), true, []⟩] := by
  decide

/-- C4 (amended): in the current renderTemplate loop, longestName equals
the claimed maximum over servers (hostname length, plus 4 when flagged
for www redirect pairing) and over all alias hostnames; in the legacy
OnUpdate loop, longestName is only the maximum of the plain hostname
lengths, with no +4 and no alias contribution. -/
theorem longestName_characterization (servers : List IngressServer) :
    (renderTemplateNameSizes servers).1 = specLongestName servers ∧
      (legacyNameSizes servers).1 =
        (servers.map (fun srv => srv.hostname.length)).foldr max 0 := by
  constructor
  · unfold renderTemplateNameSizes
    rw [rt_fold_fst]
    simp
  · unfold legacyNameSizes
    rw [legacy_fold_fst]
    simp

/-! ### Claim C5: the max-size candidate -/

/-- C5 counterexample: for a single server with hostname of length 3 and
the redirect flag set, the current renderTemplate candidate is
nextPowerOf2 (3 + 4) = 8, while nextPowerOf2 of the sum of the hostname
lengths is nextPowerOf2 3 = 4. -/
theorem serverNameHashMaxSize_candidate_cex :
    nextPowerOf2 (((renderTemplateNameSizes [⟨("a.b"), true, []⟩]).2 : ℕ) : ℤ) ≠
      nextPowerOf2 ((specHostnameLengthSum [⟨("a.b"), true, []⟩] : ℕ) : ℤ) := by
  decide

/-- Embedding of the ServerNameHashMaxSize adjustment of the current
renderTemplate: the candidate is nextPowerOf2 of serverNameBytes, and the
configured value is replaced exactly when it is smaller. -/
def renderTemplateServerNameHashMaxSize (cfg : ℤ) (servers : List IngressServer) : ℤ :=
  if cfg < nextPowerOf2 (((renderTemplateNameSizes servers).2 : ℕ) : ℤ) then
    nextPowerOf2 (((renderTemplateNameSizes servers).2 : ℕ) : ℤ)
  else cfg

/-- Embedding of the same adjustment in the legacy OnUpdate (identical
comparison, but serverNameBytes is the plain hostname length sum). -/
def legacyServerNameHashMaxSize (cfg : ℤ) (servers : List IngressServer) : ℤ :=
  if cfg < nextPowerOf2 (((legacyNameSizes servers).2 : ℕ) : ℤ) then
    nextPowerOf2 (((legacyNameSizes servers).2 : ℕ) : ℤ)
  else cfg

/-- C5 (amended): the legacy candidate is nextPowerOf2 of the sum of the
plain hostname lengths as claimed, while the current renderTemplate
candidate sums hostname lengths with 4 added for every redirect-flagged
server; in both generations the configured max-size is raised to the
candidate exactly when the candidate exceeds it and is never lowered;
for the single server app.example.com both candidates are
nextPowerOf2 15 = 16. -/
theorem serverNameHashMaxSize_characterization (cfg : ℤ) (servers : List IngressServer) :
    (legacyNameSizes servers).2 = specHostnameLengthSum servers ∧
    (renderTemplateNameSizes servers).2 = (servers.map (fun srv =>
        srv.hostname.length + (if srv.redirectFromToWWW then 4 else 0))).sum ∧
    (nextPowerOf2 (((legacyNameSizes servers).2 : ℕ) : ℤ) ≤ cfg →
      legacyServerNameHashMaxSize cfg servers = cfg) ∧
    (cfg < nextPowerOf2 (((legacyNameSizes servers).2 : ℕ) : ℤ) →
      legacyServerNameHashMaxSize cfg servers =
        nextPowerOf2 (((legacyNameSizes servers).2 : ℕ) : ℤ)) ∧
    cfg ≤ legacyServerNameHashMaxSize cfg servers ∧
    (nextPowerOf2 (((renderTemplateNameSizes servers).2 : ℕ) : ℤ) ≤ cfg →
      renderTemplateServerNameHashMaxSize cfg servers = cfg) ∧
    (cfg < nextPowerOf2 (((renderTemplateNameSizes servers).2 : ℕ) : ℤ) →
      renderTemplateServerNameHashMaxSize cfg servers =
        nextPowerOf2 (((renderTemplateNameSizes servers).2 : ℕ) : ℤ)) ∧
    cfg ≤ renderTemplateServerNameHashMaxSize cfg servers ∧
    nextPowerOf2
        (((renderTemplateNameSizes [⟨("app.example.com"), false, []⟩]).2 : ℕ) : ℤ) = 16 ∧
    nextPowerOf2 (((legacyNameSizes [⟨("app.example.com"), false, []⟩]).2 : ℕ) : ℤ) = 16 := by
  refine ⟨?_, ?_, ?_, ?_, ?_, ?_, ?_, ?_, by decide, by decide⟩
  · unfold legacyNameSizes
    rw [legacy_fold_snd]
    unfold specHostnameLengthSum
    omega
  · unfold renderTemplateNameSizes
    rw [rt_fold_snd]
    omega
  · intro h
    unfold legacyServerNameHashMaxSize
    split_ifs <;> omega
  · intro h
    unfold legacyServerNameHashMaxSize
    split_ifs <;> omega
  · unfold legacyServerNameHashMaxSize
    split_ifs <;> omega
  · intro h
    unfold renderTemplateServerNameHashMaxSize
    split_ifs <;> omega
  · intro h
    unfold renderTemplateServerNameHashMaxSize
    split_ifs <;> omega
  · unfold renderTemplateServerNameHashMaxSize
    split_ifs <;> omega

/-- Witness for C5 at cfg = 0 with a single redirect-flagged server of
hostname length 3: the candidate 8 exceeds 0 and is installed. -/
theorem serverNameHashMaxSize_characterization_witness :
    renderTemplateServerNameHashMaxSize 0 [⟨("a.b"), true, []⟩] =
      nextPowerOf2 (((renderTemplateNameSizes [⟨("a.b"), true, []⟩]).2 : ℕ) : ℤ) :=
  (serverNameHashMaxSize_characterization 0 [⟨("a.b"), true, []⟩]).2.2.2.2.2.2.1
    (by decide)

/-! ### Claim C3: the bucket-size adjustment -/

/-- Embedding of the ServerNameHashBucketSize adjustment of the current
renderTemplate: replace the configured value exactly when it is smaller
than the computed nginxHashBucketSize of longestName. -/
def renderTemplateServerNameHashBucketSize (cfg : ℤ) (servers : List IngressServer) : ℤ :=
  if cfg < nginxHashBucketSize (((renderTemplateNameSizes servers).1 : ℕ) : ℤ) then
    nginxHashBucketSize (((renderTemplateNameSizes servers).1 : ℕ) : ℤ)
  else cfg

/-- Embedding of the ServerNameHashBucketSize adjustment of the legacy
OnUpdate: the computed value is installed only when the configured value
is exactly 0. -/
def legacyServerNameHashBucketSize (cfg : ℤ) (servers : List IngressServer) : ℤ :=
  if cfg = 0 then nginxHashBucketSize (((legacyNameSizes servers).1 : ℕ) : ℤ) else cfg

/-- C3 counterexample: in the legacy OnUpdate a configured non-zero
override of 8, smaller than the computed value 64 for the hostname
app.example.com, is kept instead of being raised. -/
theorem serverNameHashBucketSize_legacy_cex :
    legacyServerNameHashBucketSize 8 [⟨("app.example.com"), false, []⟩] = 8 ∧
      nginxHashBucketSize
        (((legacyNameSizes [⟨("app.example.com"), false, []⟩]).1 : ℕ) : ℤ) = 64 := by
  decide

/-- C3 (amended): in the current renderTemplate the effective bucket size
is the computed nginxHashBucketSize value exactly when that value exceeds
the configured one, and a configured override is never reduced; in the
legacy OnUpdate the computed value is installed only when the configured
value is 0, and a non-zero override smaller than the computed value is
kept unchanged. -/
theorem serverNameHashBucketSize_adjustment (cfg : ℤ) (servers : List IngressServer) :
    (cfg < nginxHashBucketSize (((renderTemplateNameSizes servers).1 : ℕ) : ℤ) →
      renderTemplateServerNameHashBucketSize cfg servers =
        nginxHashBucketSize (((renderTemplateNameSizes servers).1 : ℕ) : ℤ)) ∧
    (nginxHashBucketSize (((renderTemplateNameSizes servers).1 : ℕ) : ℤ) ≤ cfg →
      renderTemplateServerNameHashBucketSize cfg servers = cfg) ∧
    cfg ≤ renderTemplateServerNameHashBucketSize cfg servers ∧
    (cfg = 0 → legacyServerNameHashBucketSize cfg servers =
      nginxHashBucketSize (((legacyNameSizes servers).1 : ℕ) : ℤ)) ∧
    (cfg ≠ 0 → legacyServerNameHashBucketSize cfg servers = cfg) := by
  refine ⟨?_, ?_, ?_, ?_, ?_⟩
  · intro h
    unfold renderTemplateServerNameHashBucketSize
    split_ifs <;> omega
  · intro h
    unfold renderTemplateServerNameHashBucketSize
    split_ifs <;> omega
  · unfold renderTemplateServerNameHashBucketSize
    split_ifs <;> omega
  · intro h
    unfold legacyServerNameHashBucketSize
    split_ifs <;> omega
  · intro h
    unfold legacyServerNameHashBucketSize
    split_ifs <;> omega

/-- Witness for C3 at cfg = 0 with no servers: the computed value 32
exceeds 0 and is installed. -/
theorem serverNameHashBucketSize_adjustment_witness :
    renderTemplateServerNameHashBucketSize 0 [] =
      nginxHashBucketSize (((renderTemplateNameSizes []).1 : ℕ) : ℤ) :=
  (serverNameHashBucketSize_adjustment 0 []).1 (by decide)

/-! ### Claim C6: redirect-pair mapping in the legacy OnUpdate -/

/-- Embedding of the legacy OnUpdate redirect loop.  For every server
flagged RedirectFromToWWW the paired name n is computed as
strings.TrimLeft(hostname, "www.") when the hostname has "www." as a
prefix (note that TrimLeft removes all leading characters drawn from the
cutset consisting of the letters of "www.", not the literal four-byte
prefix), and "www." + hostname otherwise; the pair is recorded only if n
is not already in the map and no server entity has hostname n.  The Go
map is modeled as an association list keyed by the paired name. -/
def legacyRedirectServers (servers : List IngressServer) : List (String × String) :=
  servers.foldl (fun redirectServers srv =>
    if srv.redirectFromToWWW then
      let n :=
        if ("www.").data.isPrefixOf srv.hostname.data then
          String.mk (srv.hostname.data.dropWhile (fun c => ("www.").data.contains c))
        else ("www.") ++ srv.hostname
      if (redirectServers.lookup n).isSome then redirectServers
      else if servers.any (fun esrv => esrv.hostname == n) then redirectServers
      else redirectServers ++ [(n, srv.hostname)]
    else redirectServers) []

/-- C6 failing input: a redirect-flagged server www.web.com.  The claim
(and the spec) require the paired name web.com, obtained by removing
exactly the leading "www."; the code's strings.TrimLeft with cutset
"www." also strips the w of web and produces eb.com. -/
theorem legacyRedirectServers_trimleft_bug :
    legacyRedirectServers [⟨("www.web.com"), true, []⟩] =
      [(("eb.com"), ("www.web.com"))] ∧
      legacyRedirectServers [⟨("www.example.com"), true, []⟩] =
        [(("example.com"), ("www.example.com"))] ∧
      legacyRedirectServers [⟨("example.com"), true, []⟩] =
        [(("www.example.com"), ("example.com"))] := by
  refine ⟨?_, ?_, ?_⟩ <;> rfl

/-! ### Claim C9: derived worker capacity limits -/

/-- Embedding of the current renderTemplate MaxWorkerOpenFiles
derivation, entered only when the configured value is 0: rlimit minus
1024, clamped from below at 1024. -/
def renderTemplateMaxWorkerOpenFiles (cfgMaxWorkerOpenFiles rlimitMaxNumFiles : ℤ) : ℤ :=
  if cfgMaxWorkerOpenFiles = 0 then
    (if rlimitMaxNumFiles - 1024 < 1024 then 1024 else rlimitMaxNumFiles - 1024)
  else cfgMaxWorkerOpenFiles

/-- Embedding of the current renderTemplate MaxWorkerConnections
derivation, entered only when the configured value is 0.  In the source
the expression is int(float64(cfg.MaxWorkerOpenFiles * 3.0 / 4)); the
untyped constants 3.0 and 4 are converted to int, so the whole
computation is integer multiplication followed by Go's truncating
integer division. -/
def renderTemplateMaxWorkerConnections (cfgMaxWorkerConnections maxWorkerOpenFiles : ℤ) : ℤ :=
  if cfgMaxWorkerConnections = 0 then Int.tdiv (maxWorkerOpenFiles * 3) 4
  else cfgMaxWorkerConnections

/-- Embedding of the legacy OnUpdate maxOpenFiles derivation: the
system-wide fs.file-max is divided by the worker process count (parsed
from the configuration; a parse failure falls back to 1), 1024 is
subtracted, and the result is clamped from below at 1024.  There is no
configured-value guard in the legacy code.  A worker count of 0 would
make the Go program panic; the embedding is only used with non-zero
counts. -/
def legacyMaxOpenFiles (fileMax : ℤ) (workerProcessesParsed : Option ℤ) : ℤ :=
  let wp := workerProcessesParsed.getD 1
  if Int.tdiv fileMax wp - 1024 < 1024 then 1024 else Int.tdiv fileMax wp - 1024

/-- The derived limit as described by the claim. -/
def specMaxOpenFiles (fdLimit : ℤ) : ℤ := max 1024 (fdLimit - 1024)

/-- C9 counterexample: the legacy OnUpdate derivation divides the file
descriptor limit by the worker process count.  With a limit of 8192 and
2 worker processes the code derives max(1024, 8192/2 - 1024) = 3072, not
the claimed max(1024, 8192 - 1024) = 7168. -/
theorem legacyMaxOpenFiles_cex :
    legacyMaxOpenFiles 8192 (some 2) = 3072 ∧ specMaxOpenFiles 8192 = 7168 ∧
      (3072 : ℤ) ≠ 7168 := by
  refine ⟨by decide, by decide, by decide⟩

theorem tdiv_eq_div_of_nonneg (a b : ℕ) :
    Int.tdiv (Int.ofNat a) (Int.ofNat b) = Int.ofNat a / Int.ofNat b := rfl

/-- C9 (amended): when MaxWorkerOpenFiles is not configured the current
renderTemplate derives max(1024, rlimit - 1024), and when
MaxWorkerConnections is not configured it derives floor of 3/4 of that
derived limit; the legacy OnUpdate instead derives
max(1024, fileMax / workerProcesses - 1024), dividing the system-wide
limit by the worker count (with count 1 on parse failure). -/
theorem maxOpenFiles_characterization (rl fileMax wp : ℤ) :
    renderTemplateMaxWorkerOpenFiles 0 rl = specMaxOpenFiles rl ∧
    renderTemplateMaxWorkerConnections 0 (renderTemplateMaxWorkerOpenFiles 0 rl) =
      specMaxOpenFiles rl * 3 / 4 ∧
    legacyMaxOpenFiles fileMax (some wp) = max 1024 (Int.tdiv fileMax wp - 1024) ∧
    legacyMaxOpenFiles fileMax none = max 1024 (fileMax - 1024) := by
  have hmax : ∀ x : ℤ, (if x - 1024 < 1024 then (1024 : ℤ) else x - 1024) =
      max 1024 (x - 1024) := by
    intro x
    rw [max_def]
    split_ifs <;> omega
  refine ⟨?_, ?_, ?_, ?_⟩
  · unfold renderTemplateMaxWorkerOpenFiles specMaxOpenFiles
    rw [if_pos rfl]
    exact hmax rl
  · unfold renderTemplateMaxWorkerConnections
    rw [if_pos rfl]
    have h1 : renderTemplateMaxWorkerOpenFiles 0 rl = specMaxOpenFiles rl := by
      unfold renderTemplateMaxWorkerOpenFiles specMaxOpenFiles
      rw [if_pos rfl]
      exact hmax rl
    rw [h1]
    have hge : (1024 : ℤ) ≤ specMaxOpenFiles rl := le_max_left _ _
    have hnn : 0 ≤ specMaxOpenFiles rl * 3 := by omega
    obtain ⟨m, hm⟩ := Int.eq_ofNat_of_zero_le hnn
    rw [hm]
    exact tdiv_eq_div_of_nonneg m 4
  · unfold legacyMaxOpenFiles
    simp only [Option.getD_some]
    exact hmax _
  · unfold legacyMaxOpenFiles
    simp only [Option.getD_none]
    have h1 : Int.tdiv fileMax 1 = fileMax := Int.tdiv_one fileMax
    rw [h1]
    exact hmax _

/-! ### Claim C1: validate-then-apply protocol of OnUpdate -/

/-- State of the fixed active configuration path (cfgPath,
/etc/nginx/nginx.conf): the byte content currently stored there. -/
structure NginxFS where
  active : String
deriving DecidableEq

/-- Environment oracles for the effectful steps of OnUpdate: the outcome
of each fallible filesystem or subprocess operation.  nginxTestOk models
the worker binary's test run on the candidate content written to the
private temporary file.  Writes are modeled as all-or-nothing: on
failure the target file is unchanged. -/
structure ApplyEnv where
  tracingOk : Bool
  testTempCreateOk : Bool
  testTempWriteOk : Bool
  nginxTestOk : String → Bool
  verboseLogging : Bool
  diffTempCreateOk : Bool
  diffTempWriteOk : Bool
  writeActiveOk : Bool
  usesGRPC : Bool
  reloadOk : Bool

/-- Embedding of testTemplate: reject empty input, create and fill a
temporary file, run the binary's test mode on it.  Only the error/ok
outcome is observable by OnUpdate; the temporary file never aliases the
active path. -/
def testTemplate (env : ApplyEnv) (cfg : String) : Except String Unit :=
  if cfg.length = 0 then .error ("invalid NGINX configuration (empty)")
  else if env.testTempCreateOk = false then .error ("temp file creation failed")
  else if env.testTempWriteOk = false then .error ("temp file write failed")
  else if env.nginxTestOk cfg = false then .error ("nginx configuration test failed")
  else .ok ()

/-- Embedding of OnUpdate (current generation; the legacy generation is
the special case tracingOk = true, usesGRPC = false): render the
template, write the opentracing configuration, self-test the candidate,
optionally compute a diff through temporary files, write the candidate
to the active path, and signal reload unless configuration is pushed
over gRPC.  Every error branch before the final write leaves the active
file untouched. -/
def OnUpdate (env : ApplyEnv) (generated : Except String String) (fs : NginxFS) :
    Except String Unit × NginxFS :=
  match generated with
  | .error e => (.error e, fs)
  | .ok content =>
    if env.tracingOk = false then (.error ("createOpentracingCfg failed"), fs)
    else
      match testTemplate env content with
      | .error e => (.error e, fs)
      | .ok _ =>
        if env.verboseLogging = true ∧ fs.active ≠ content ∧ env.diffTempCreateOk = false
        then (.error ("diff temp file creation failed"), fs)
        else if env.verboseLogging = true ∧ fs.active ≠ content ∧ env.diffTempWriteOk = false
        then (.error ("diff temp file write failed"), fs)
        else if env.writeActiveOk = false then (.error ("write of active file failed"), fs)
        else if env.usesGRPC = false ∧ env.reloadOk = false
        then (.error ("reload failed"), ⟨content⟩)
        else (.ok (), ⟨content⟩)

/-- C1: if the self-test fails on the candidate then OnUpdate returns an
error and the active configuration file is byte-identical to its
pre-apply content; and whenever the active file changes at all, the new
content is the rendered candidate and it has passed the self-test. -/
theorem OnUpdate_validates_before_write (env : ApplyEnv) (generated : Except String String)
    (fs : NginxFS) :
    (∀ content e, generated = .ok content → testTemplate env content = .error e →
      ∃ e2, OnUpdate env generated fs = (.error e2, fs)) ∧
    ((OnUpdate env generated fs).2.active ≠ fs.active →
      ∃ content, generated = .ok content ∧ (OnUpdate env generated fs).2.active = content ∧
        testTemplate env content = .ok ()) := by
  constructor
  · rintro content e rfl hte
    by_cases htr : env.tracingOk = false
    · exact ⟨("createOpentracingCfg failed"), by simp [OnUpdate, htr]⟩
    · exact ⟨e, by simp [OnUpdate, htr, hte]⟩
  · intro hchanged
    cases generated with
    | error e =>
      exfalso
      apply hchanged
      simp [OnUpdate]
    | ok content =>
      refine ⟨content, rfl, ?_, ?_⟩
      · by_cases htr : env.tracingOk = false
        · exfalso
          apply hchanged
          simp [OnUpdate, htr]
        · cases htt : testTemplate env content with
          | error e =>
            exfalso
            apply hchanged
            simp [OnUpdate, htr, htt]
          | ok u =>
            by_cases h1 : env.verboseLogging = true ∧ fs.active ≠ content ∧
                env.diffTempCreateOk = false
            · exfalso
              apply hchanged
              simp [OnUpdate, htr, htt, h1]
            · by_cases h2 : env.verboseLogging = true ∧ fs.active ≠ content ∧
                  env.diffTempWriteOk = false
              · exfalso
                apply hchanged
                simp [OnUpdate, htr, htt, h1, h2]
                split <;> rfl
              · by_cases h3 : env.writeActiveOk = false
                · exfalso
                  apply hchanged
                  simp [OnUpdate, htr, htt, h1, h2, h3]
                · by_cases h4 : env.usesGRPC = false ∧ env.reloadOk = false
                  · simp [OnUpdate, htr, htt, h1, h2, h3, h4]
                  · simp [OnUpdate, htr, htt, h1, h2, h3, h4]
      · by_cases htr : env.tracingOk = false
        · exfalso
          apply hchanged
          simp [OnUpdate, htr]
        · cases htt : testTemplate env content with
          | error e =>
            exfalso
            apply hchanged
            simp [OnUpdate, htr, htt]
          | ok u =>
            cases u
            rfl

/-- Concrete environment in which the worker binary rejects every
candidate. -/
def rejectAllEnv : ApplyEnv :=
  ⟨true, true, true, fun _ => false, false, true, true, true, false, true⟩

/-- Witness for C1: with a failing self-test, applying a non-empty
candidate over an active file returns an error and leaves the file
unchanged. -/
theorem OnUpdate_validates_before_write_witness :
    ∃ e2, OnUpdate rejectAllEnv (Except.ok ("server")) ⟨("old config")⟩ =
      (Except.error e2, ⟨("old config")⟩) :=
  (OnUpdate_validates_before_write rejectAllEnv (Except.ok ("server")) ⟨("old config")⟩).1
    ("server") ("nginx configuration test failed") rfl rfl
